import Mathlib

/-!
Shallow embedding of the Intcode interpreter from
`src/src/aoc_problems/day_09.rs` (Advent of Code 2019, day 9).

Rust `usize` casts and `usize` arithmetic are modelled explicitly modulo
`2^64`; `Vec<i64>` indexing is bounds-checked (a Rust panic becomes an
explicit error value), and `Vec::resize` fails when the requested length
exceeds the documented capacity limit (`isize::MAX` bytes, i.e. `2^60 - 1`
elements of 8 bytes), which in Rust is a deterministic panic.
-/

deriving instance DecidableEq for Except

namespace Day09

/-- `2^64`, the modulus of Rust `usize` arithmetic on a 64-bit target. -/
def USIZE : Nat := 2 ^ 64

/-- Rust capacity limit for a `Vec<i64>`: at most `(2^63 - 1) / 8 = 2^60 - 1`
elements; `Vec::resize` to `2^60` or more elements panics. -/
def VECCAP : Nat := 2 ^ 60

/-- `v as usize` for an `i64` value `v` (two's-complement wrap). -/
def toUsize (v : Int) : Nat := (v % (USIZE : Int)).toNat

/-- `usize` addition (wraps modulo `2^64`). -/
def uadd (a b : Nat) : Nat := (a + b) % USIZE

/-- The `Parameter` enum of the source: addressing modes. -/
inductive Parameter
  | Position
  | Immediate
  | Relative
deriving DecidableEq, Repr

/-- All failure outcomes of the interpreter.  The first three model the
source's `Err` values (returned through `Result`); `indexOutOfBounds` and
`capacityOverflow` model Rust panics (vector indexing out of bounds,
`Vec::resize` beyond the capacity limit); `outOfFuel` marks an
incomplete run of the fuelled model and corresponds to no source event. -/
inductive RunError
  | invalidOpcode (x : Nat)
  | invalidModeDigit (d : Nat)
  | incorrectOpcode (x : Nat)
  | unknownInput (x : Nat)
  | indexOutOfBounds
  | capacityOverflow
  | outOfFuel
deriving DecidableEq, Repr

/-- `true` exactly for the errors the source returns as `Result::Err`
(as opposed to panics or fuel exhaustion of the model). -/
def RunError.isResultErr : RunError → Bool
  | .invalidOpcode _ => true
  | .invalidModeDigit _ => true
  | .incorrectOpcode _ => true
  | .unknownInput _ => true
  | _ => false

/-- The `Instruction` struct of the source. -/
structure Instruction where
  opcode : Nat
  parameters : List Parameter
deriving DecidableEq, Repr

/-- Base-10 digits of `q`, least significant first, with explicit fuel
(complete whenever `q < 10 ^ fuel`).  Models
`(number / 100).to_string().chars()...` followed by `reverse()`. -/
def digitsFuel : Nat → Nat → List Nat
  | 0, _ => []
  | f + 1, q => if q = 0 then [] else q % 10 :: digitsFuel f (q / 10)

/-- The digit list the source builds: `q.to_string()` of `0` is `"0"`,
so `q = 0` yields `[0]`; otherwise the digits least-significant first. -/
def digitList (q : Nat) : List Nat :=
  if q = 0 then [0] else digitsFuel 64 q

/-- `Vec::resize(n, d)`: truncate or pad with `d` to length exactly `n`. -/
def listResize (l : List Nat) (n : Nat) (d : Nat) : List Nat :=
  l.take n ++ List.replicate (n - l.length) d

/-- The per-opcode parameter count match block of `Instruction::new`. -/
def paramsLength (opcode : Nat) : Except RunError Nat :=
  if opcode = 1 then pure 3
  else if opcode = 2 then pure 3
  else if opcode = 3 then pure 1
  else if opcode = 4 then pure 1
  else if opcode = 5 then pure 2
  else if opcode = 6 then pure 2
  else if opcode = 7 then pure 3
  else if opcode = 8 then pure 3
  else if opcode = 9 then pure 1
  else if opcode = 99 then pure 0
  else throw (.invalidOpcode opcode)

/-- One digit of the mode list mapped to a `Parameter`. -/
def digitToParam (d : Nat) : Except RunError Parameter :=
  if d = 0 then pure .Position
  else if d = 1 then pure .Immediate
  else if d = 2 then pure .Relative
  else throw (.invalidModeDigit d)

/-- `Instruction::new`. -/
def Instruction.new (number : Nat) : Except RunError Instruction := do
  let opcode := number % 100
  let digits := digitList (number / 100)
  let k ← paramsLength opcode
  let ds := listResize digits k 0
  let parameters ← ds.mapM digitToParam
  pure ⟨opcode, parameters⟩

/-- The `Program` struct of the source. -/
structure ProgState where
  memory : List Int
  firstInput : Int
  secondInput : Int
  currentInput : Nat
  pointerIdx : Nat
  relativeBase : Int
deriving DecidableEq, Repr

/-- `Program::new`. -/
def ProgState.new (memory : List Int) (firstInput secondInput : Int) : ProgState :=
  ⟨memory, firstInput, secondInput, 1, 0, 0⟩

/-- `Program::get_input`. -/
def getInput (s : ProgState) : Except RunError (Int × ProgState) :=
  match s.currentInput with
  | 1 => pure (s.firstInput, { s with currentInput := s.currentInput + 1 })
  | 2 => pure (s.secondInput, s)
  | x => throw (.unknownInput x)

/-- `Program::set_input`. -/
def setInput (s : ProgState) (input : Int) : ProgState :=
  { s with secondInput := input }

/-- Direct `Vec` indexing `self.memory[i]`: panics (error) out of bounds. -/
def fetch (mem : List Int) (i : Nat) : Except RunError Int :=
  if h : i < mem.length then pure (mem.get ⟨i, h⟩) else throw .indexOutOfBounds

/-- `if self.memory.len() < idxPlus1 { self.memory.resize(idxPlus1, 0) }`,
with the `Vec` capacity-overflow panic made explicit. -/
def ensureLen (mem : List Int) (idxPlus1 : Nat) : Except RunError (List Int) :=
  if mem.length < idxPlus1 then
    if VECCAP ≤ idxPlus1 then throw .capacityOverflow
    else pure (mem ++ List.replicate (idxPlus1 - mem.length) 0)
  else pure mem

/-- `Program::get_parameter` (returns the value and the possibly grown state). -/
def getParameter (s : ProgState) (form : Parameter) (val : Int) :
    Except RunError (Int × ProgState) :=
  match form with
  | .Position => do
      let idx := toUsize val
      let mem ← ensureLen s.memory (uadd idx 1)
      let v ← fetch mem idx
      pure (v, { s with memory := mem })
  | .Immediate => pure (val, s)
  | .Relative => do
      let idx := toUsize (s.relativeBase + val)
      let mem ← ensureLen s.memory (uadd idx 1)
      let v ← fetch mem idx
      pure (v, { s with memory := mem })

/-- `Program::set_parameter`. -/
def setParameter (s : ProgState) (idx : Nat) (val : Int) :
    Except RunError ProgState := do
  let mem ← ensureLen s.memory (uadd idx 1)
  if _h : idx < mem.length then pure { s with memory := mem.set idx val }
  else throw .indexOutOfBounds

/-- Outcome of one iteration of the `run_program` loop body. -/
inductive StepOut
  | next
  | halt
  | output (v : Int)
deriving DecidableEq, Repr

/-- `Vec` indexing into the decoded parameter list `parameters[i]`. -/
def paramAt (ps : List Parameter) (i : Nat) : Except RunError Parameter :=
  if h : i < ps.length then pure (ps.get ⟨i, h⟩) else throw .indexOutOfBounds

/-- One iteration of the `loop` body of `Program::run_program`, with the
source's evaluation order (operand fetches interleaved with the possible
memory growth done by `get_parameter`). -/
def step (s : ProgState) : Except RunError (StepOut × ProgState) := do
  let n ← fetch s.memory s.pointerIdx
  let instr ← Instruction.new (toUsize n)
  match instr.opcode with
  | 1 => do
      let p0 ← paramAt instr.parameters 0
      let a1 ← fetch s.memory (uadd s.pointerIdx 1)
      let (input1, s1) ← getParameter s p0 a1
      let p1 ← paramAt instr.parameters 1
      let a2 ← fetch s1.memory (uadd s.pointerIdx 2)
      let (input2, s2) ← getParameter s1 p1 a2
      let out ← fetch s2.memory (uadd s.pointerIdx 3)
      let s3 ← setParameter s2 (toUsize out) (input1 + input2)
      pure (.next, { s3 with pointerIdx := uadd s3.pointerIdx 4 })
  | 2 => do
      let p0 ← paramAt instr.parameters 0
      let a1 ← fetch s.memory (uadd s.pointerIdx 1)
      let (input1, s1) ← getParameter s p0 a1
      let p1 ← paramAt instr.parameters 1
      let a2 ← fetch s1.memory (uadd s.pointerIdx 2)
      let (input2, s2) ← getParameter s1 p1 a2
      let out ← fetch s2.memory (uadd s.pointerIdx 3)
      let s3 ← setParameter s2 (toUsize out) (input1 * input2)
      pure (.next, { s3 with pointerIdx := uadd s3.pointerIdx 4 })
  | 3 => do
      let out ← fetch s.memory (uadd s.pointerIdx 1)
      let (input, s1) ← getInput s
      let s2 ← setParameter s1 (toUsize out) input
      pure (.next, { s2 with pointerIdx := uadd s2.pointerIdx 2 })
  | 4 => do
      let out ← fetch s.memory (uadd s.pointerIdx 1)
      let s1 := { s with pointerIdx := uadd s.pointerIdx 2 }
      let (v, s2) ← getParameter s1 .Immediate out
      pure (.output v, s2)
  | 5 => do
      let p0 ← paramAt instr.parameters 0
      let a1 ← fetch s.memory (uadd s.pointerIdx 1)
      let (input1, s1) ← getParameter s p0 a1
      let p1 ← paramAt instr.parameters 1
      let a2 ← fetch s1.memory (uadd s.pointerIdx 2)
      let (input2, s2) ← getParameter s1 p1 a2
      if input1 ≠ 0 then pure (.next, { s2 with pointerIdx := toUsize input2 })
      else pure (.next, { s2 with pointerIdx := uadd s2.pointerIdx 3 })
  | 6 => do
      let p0 ← paramAt instr.parameters 0
      let a1 ← fetch s.memory (uadd s.pointerIdx 1)
      let (input1, s1) ← getParameter s p0 a1
      let p1 ← paramAt instr.parameters 1
      let a2 ← fetch s1.memory (uadd s.pointerIdx 2)
      let (input2, s2) ← getParameter s1 p1 a2
      if input1 = 0 then pure (.next, { s2 with pointerIdx := toUsize input2 })
      else pure (.next, { s2 with pointerIdx := uadd s2.pointerIdx 3 })
  | 7 => do
      let p0 ← paramAt instr.parameters 0
      let a1 ← fetch s.memory (uadd s.pointerIdx 1)
      let (input1, s1) ← getParameter s p0 a1
      let p1 ← paramAt instr.parameters 1
      let a2 ← fetch s1.memory (uadd s.pointerIdx 2)
      let (input2, s2) ← getParameter s1 p1 a2
      let out ← fetch s2.memory (uadd s.pointerIdx 3)
      let s3 ← setParameter s2 (toUsize out) (if input1 < input2 then 1 else 0)
      pure (.next, { s3 with pointerIdx := uadd s3.pointerIdx 4 })
  | 8 => do
      let p0 ← paramAt instr.parameters 0
      let a1 ← fetch s.memory (uadd s.pointerIdx 1)
      let (input1, s1) ← getParameter s p0 a1
      let p1 ← paramAt instr.parameters 1
      let a2 ← fetch s1.memory (uadd s.pointerIdx 2)
      let (input2, s2) ← getParameter s1 p1 a2
      let out ← fetch s2.memory (uadd s.pointerIdx 3)
      let s3 ← setParameter s2 (toUsize out) (if input1 = input2 then 1 else 0)
      pure (.next, { s3 with pointerIdx := uadd s3.pointerIdx 4 })
  | 9 => do
      let p0 ← paramAt instr.parameters 0
      let a1 ← fetch s.memory (uadd s.pointerIdx 1)
      let (input1, s1) ← getParameter s p0 a1
      let s2 := { s1 with relativeBase := s1.relativeBase + input1 }
      pure (.next, { s2 with pointerIdx := uadd s2.pointerIdx 2 })
  | 99 => pure (.halt, s)
  | x => throw (.incorrectOpcode x)

/-- `Program::run_program`: iterate `step` until an output (`some v`) or
halt (`none`), with explicit fuel. -/
def runProgram : Nat → ProgState → Except RunError (Option Int × ProgState)
  | 0, _ => throw .outOfFuel
  | fuel + 1, s => do
      let (o, s1) ← step s
      match o with
      | .halt => pure (none, s1)
      | .output v => pure (some v, s1)
      | .next => runProgram fuel s1

/-- Drive `run_program` repeatedly, collecting outputs until a halt
(the `while let Some(result) = program.run_program()` loops of the tests). -/
def collectOutputs : Nat → ProgState → Except RunError (List Int × ProgState)
  | 0, _ => throw .outOfFuel
  | fuel + 1, s => do
      let (o, s1) ← runProgram (fuel + 1) s
      match o with
      | none => pure ([], s1)
      | some v => do
          let (vs, s2) ← collectOutputs fuel s1
          pure (v :: vs, s2)

/-- The full output sequence of a program run from a fresh `Program`. -/
def outputsOf (fuel : Nat) (mem : List Int) (firstInput secondInput : Int) :
    Except RunError (List Int) :=
  (collectOutputs fuel (ProgState.new mem firstInput secondInput)).map Prod.fst

/-- The `Permutations` iterator state of the source (Heap's algorithm). -/
structure Permutations where
  idxs : List Nat
  swaps : List Nat
  i : Nat
deriving DecidableEq, Repr

/-- Swap the elements at positions `a` and `b` (`Vec::swap`). -/
def listSwap (l : List Nat) (a b : Nat) : List Nat :=
  (l.set a (l.getD b 0)).set b (l.getD a 0)

/-- The inner `loop` of `Permutations::next`: advance `i` past exhausted
swap counters (resetting them), stopping when `swaps[i] < i`; `none` when
`i` runs off the end.  Fuel `swaps.length + 1` always suffices. -/
def nextLoop : Nat → Permutations → Option Permutations
  | 0, _ => none
  | f + 1, st =>
      if st.i ≥ st.swaps.length then none
      else if st.swaps.getD st.i 0 < st.i then some st
      else nextLoop f { st with swaps := st.swaps.set st.i 0, i := st.i + 1 }

/-- `Permutations::next` (`Iterator::next` of the source). -/
def permNext (st : Permutations) : Option (List Nat × Permutations) :=
  if st.i > 0 then
    match nextLoop (st.swaps.length + 1) st with
    | none => none
    | some st1 =>
        let idxs := listSwap st1.idxs st1.i ((st1.i &&& 1) * st1.swaps.getD st1.i 0)
        let swaps := st1.swaps.set st1.i (st1.swaps.getD st1.i 0 + 1)
        some (idxs, { idxs := idxs, swaps := swaps, i := 1 })
  else some (st.idxs, { st with i := 1 })

/-- Collect the iterator into a list (`perms.collect::<Vec<_>>()`). -/
def collectPerms : Nat → Permutations → List (List Nat)
  | 0, _ => []
  | f + 1, st =>
      match permNext st with
      | none => []
      | some (p, st1) => p :: collectPerms f st1

/-- `get_permutations`: collect all permutations produced by the iterator
started from `{ idxs: 0..size, swaps: [0; size], i: 0 }`. -/
def getPermutations (size : Nat) : List (List Nat) :=
  collectPerms (Nat.factorial size + 1)
    ⟨List.range size, List.replicate size 0, 0⟩

/-- All ways to insert `x` into a list (specification-side helper). -/
def insertions (x : Nat) : List Nat → List (List Nat)
  | [] => [[x]]
  | y :: ys => (x :: y :: ys) :: (insertions x ys).map (fun l => y :: l)

/-- All permutations of a list, by repeated insertion
(specification-side reference enumeration, independent of the source's
Heap's-algorithm iterator). -/
def permsOf : List Nat → List (List Nat)
  | [] => [[]]
  | x :: xs => (permsOf xs).flatMap (insertions x)

/-- The inner amplifier loop of `_q2`: run the current amplifier on the
current `input`, chain outputs cyclically, and return `output_signal`
(the last output of amplifier 4) when some amplifier halts. -/
def trialLoop : Nat → List ProgState → Nat → Int → Int → Nat →
    Except RunError Int
  | 0, _, _, _, _, _ => throw .outOfFuel
  | f + 1, progs, ampIdx, outputSignal, input, runFuel => do
      let amp := setInput (progs.getD ampIdx (ProgState.new [] 0 0)) input
      let (o, amp1) ← runProgram runFuel amp
      match o with
      | some v =>
          let progs1 := progs.set ampIdx amp1
          let outputSignal1 := if ampIdx = 4 then v else outputSignal
          trialLoop f progs1 ((ampIdx + 1) % 5) outputSignal1 v runFuel
      | none => pure outputSignal

/-- One trial of `_q2` for a single phase-setting permutation: build one
`Program` per amplifier with first input `n + 5` and second input `0`,
then run the feedback loop. -/
def trial (mem : List Int) (perm : List Nat) (fuel : Nat) :
    Except RunError Int :=
  let progs := perm.map (fun n => ProgState.new mem ((n : Int) + 5) 0)
  trialLoop fuel progs 0 0 0 fuel

/-- `_q2`: maximum trial result over the iterator's permutations of
`0..5`, starting from `max_signal = 0`, returned `as usize`. -/
def q2 (mem : List Int) (fuel : Nat) : Except RunError Nat := do
  let maxSignal ← (getPermutations 5).foldlM
    (fun acc p => do
      let r ← trial mem p fuel
      pure (if acc < r then r else acc))
    (0 : Int)
  pure (toUsize maxSignal)

/-- States reachable through the public interface of `Program`:
construction, `set_input`, `get_input`, and `run_program`. -/
inductive Reachable : ProgState → Prop
  | new (mem : List Int) (a b : Int) : Reachable (ProgState.new mem a b)
  | set {s : ProgState} (v : Int) : Reachable s → Reachable (setInput s v)
  | input {s s1 : ProgState} {v : Int} :
      Reachable s → getInput s = .ok (v, s1) → Reachable s1
  | run {s s1 : ProgState} {fuel : Nat} {r : Option Int} :
      Reachable s → runProgram fuel s = .ok (r, s1) → Reachable s1

/-! ## Helper lemmas -/


@[simp] theorem ok_bind {ε α β : Type} (a : α) (f : α → Except ε β) :
    (Except.ok a : Except ε α) >>= f = f a := rfl

@[simp] theorem error_bind {ε α β : Type} (e : ε) (f : α → Except ε β) :
    (Except.error e : Except ε α) >>= f = .error e := rfl

@[simp] theorem pure_eq_ok {ε α : Type} (a : α) :
    (pure a : Except ε α) = .ok a := rfl

theorem bind_ok {ε α β : Type} {x : Except ε α} {f : α → Except ε β} {b : β}
    (h : x >>= f = .ok b) : ∃ a, x = .ok a ∧ f a = .ok b := by
  cases x with
  | error e => simp at h
  | ok a => exact ⟨a, rfl, by simpa using h⟩

theorem getParameter_cursor {s s1 : ProgState} {form : Parameter} {val x : Int}
    (h : getParameter s form val = .ok (x, s1)) :
    s1.currentInput = s.currentInput := by
  cases form <;> simp only [getParameter] at h
  · obtain ⟨mem, h1, h⟩ := bind_ok h
    obtain ⟨w, h2, h⟩ := bind_ok h
    simp only [pure_eq_ok, Except.ok.injEq, Prod.mk.injEq] at h
    rw [← h.2]
  · simp only [pure_eq_ok, Except.ok.injEq, Prod.mk.injEq] at h
    rw [← h.2]
  · obtain ⟨mem, h1, h⟩ := bind_ok h
    obtain ⟨w, h2, h⟩ := bind_ok h
    simp only [pure_eq_ok, Except.ok.injEq, Prod.mk.injEq] at h
    rw [← h.2]

theorem setParameter_cursor {s s1 : ProgState} {idx : Nat} {val : Int}
    (h : setParameter s idx val = .ok s1) :
    s1.currentInput = s.currentInput := by
  simp only [setParameter] at h
  obtain ⟨mem, h1, h⟩ := bind_ok h
  split at h
  · simp only [pure_eq_ok, Except.ok.injEq] at h
    rw [← h]
  · simp at h

theorem getInput_cursor {s s1 : ProgState} {v : Int}
    (h : getInput s = .ok (v, s1)) : s1.currentInput = 2 := by
  unfold getInput at h
  split at h
  · rename_i hc
    simp only [pure_eq_ok, Except.ok.injEq, Prod.mk.injEq] at h
    obtain ⟨-, h2⟩ := h
    rw [← h2]
    simp [hc]
  · rename_i hc
    simp only [pure_eq_ok, Except.ok.injEq, Prod.mk.injEq] at h
    obtain ⟨-, h2⟩ := h
    rw [← h2, hc]
  · simp at h

theorem step_cursor {s : ProgState} {r : StepOut} {s1 : ProgState}
    (h : step s = .ok (r, s1)) :
    s1.currentInput = s.currentInput ∨ s1.currentInput = 2 := by
  unfold step at h
  obtain ⟨n, hn, h⟩ := bind_ok h
  obtain ⟨instr, hi, h⟩ := bind_ok h
  split at h
  · obtain ⟨p0, -, h⟩ := bind_ok h
    obtain ⟨a1, -, h⟩ := bind_ok h
    obtain ⟨⟨i1, t1⟩, hg1, h⟩ := bind_ok h
    obtain ⟨p1, -, h⟩ := bind_ok h
    obtain ⟨a2, -, h⟩ := bind_ok h
    obtain ⟨⟨i2, t2⟩, hg2, h⟩ := bind_ok h
    obtain ⟨out, -, h⟩ := bind_ok h
    obtain ⟨t3, hs3, h⟩ := bind_ok h
    simp only [pure_eq_ok, Except.ok.injEq, Prod.mk.injEq] at h
    obtain ⟨-, h2⟩ := h
    rw [← h2]
    left
    show t3.currentInput = s.currentInput
    rw [setParameter_cursor hs3, getParameter_cursor hg2, getParameter_cursor hg1]
  · obtain ⟨p0, -, h⟩ := bind_ok h
    obtain ⟨a1, -, h⟩ := bind_ok h
    obtain ⟨⟨i1, t1⟩, hg1, h⟩ := bind_ok h
    obtain ⟨p1, -, h⟩ := bind_ok h
    obtain ⟨a2, -, h⟩ := bind_ok h
    obtain ⟨⟨i2, t2⟩, hg2, h⟩ := bind_ok h
    obtain ⟨out, -, h⟩ := bind_ok h
    obtain ⟨t3, hs3, h⟩ := bind_ok h
    simp only [pure_eq_ok, Except.ok.injEq, Prod.mk.injEq] at h
    obtain ⟨-, h2⟩ := h
    rw [← h2]
    left
    show t3.currentInput = s.currentInput
    rw [setParameter_cursor hs3, getParameter_cursor hg2, getParameter_cursor hg1]
  · obtain ⟨out, -, h⟩ := bind_ok h
    obtain ⟨⟨iv, t1⟩, hg, h⟩ := bind_ok h
    obtain ⟨t2, hs2, h⟩ := bind_ok h
    simp only [pure_eq_ok, Except.ok.injEq, Prod.mk.injEq] at h
    obtain ⟨-, h2⟩ := h
    rw [← h2]
    right
    show t2.currentInput = 2
    rw [setParameter_cursor hs2, getInput_cursor hg]
  · obtain ⟨out, -, h⟩ := bind_ok h
    obtain ⟨⟨v, t2⟩, hg, h⟩ := bind_ok h
    simp only [pure_eq_ok, Except.ok.injEq, Prod.mk.injEq] at h
    obtain ⟨-, h2⟩ := h
    rw [← h2]
    left
    exact (getParameter_cursor hg).trans rfl
  · obtain ⟨p0, -, h⟩ := bind_ok h
    obtain ⟨a1, -, h⟩ := bind_ok h
    obtain ⟨⟨i1, t1⟩, hg1, h⟩ := bind_ok h
    obtain ⟨p1, -, h⟩ := bind_ok h
    obtain ⟨a2, -, h⟩ := bind_ok h
    obtain ⟨⟨i2, t2⟩, hg2, h⟩ := bind_ok h
    dsimp only at h
    by_cases hc : i1 ≠ 0
    · rw [if_pos hc] at h
      simp only [pure_eq_ok, Except.ok.injEq, Prod.mk.injEq] at h
      obtain ⟨-, h2⟩ := h
      rw [← h2]
      left
      show t2.currentInput = s.currentInput
      rw [getParameter_cursor hg2, getParameter_cursor hg1]
    · rw [if_neg hc] at h
      simp only [pure_eq_ok, Except.ok.injEq, Prod.mk.injEq] at h
      obtain ⟨-, h2⟩ := h
      rw [← h2]
      left
      show t2.currentInput = s.currentInput
      rw [getParameter_cursor hg2, getParameter_cursor hg1]
  · obtain ⟨p0, -, h⟩ := bind_ok h
    obtain ⟨a1, -, h⟩ := bind_ok h
    obtain ⟨⟨i1, t1⟩, hg1, h⟩ := bind_ok h
    obtain ⟨p1, -, h⟩ := bind_ok h
    obtain ⟨a2, -, h⟩ := bind_ok h
    obtain ⟨⟨i2, t2⟩, hg2, h⟩ := bind_ok h
    dsimp only at h
    by_cases hc : i1 = 0
    · rw [if_pos hc] at h
      simp only [pure_eq_ok, Except.ok.injEq, Prod.mk.injEq] at h
      obtain ⟨-, h2⟩ := h
      rw [← h2]
      left
      show t2.currentInput = s.currentInput
      rw [getParameter_cursor hg2, getParameter_cursor hg1]
    · rw [if_neg hc] at h
      simp only [pure_eq_ok, Except.ok.injEq, Prod.mk.injEq] at h
      obtain ⟨-, h2⟩ := h
      rw [← h2]
      left
      show t2.currentInput = s.currentInput
      rw [getParameter_cursor hg2, getParameter_cursor hg1]
  · obtain ⟨p0, -, h⟩ := bind_ok h
    obtain ⟨a1, -, h⟩ := bind_ok h
    obtain ⟨⟨i1, t1⟩, hg1, h⟩ := bind_ok h
    obtain ⟨p1, -, h⟩ := bind_ok h
    obtain ⟨a2, -, h⟩ := bind_ok h
    obtain ⟨⟨i2, t2⟩, hg2, h⟩ := bind_ok h
    obtain ⟨out, -, h⟩ := bind_ok h
    obtain ⟨t3, hs3, h⟩ := bind_ok h
    simp only [pure_eq_ok, Except.ok.injEq, Prod.mk.injEq] at h
    obtain ⟨-, h2⟩ := h
    rw [← h2]
    left
    show t3.currentInput = s.currentInput
    rw [setParameter_cursor hs3, getParameter_cursor hg2, getParameter_cursor hg1]
  · obtain ⟨p0, -, h⟩ := bind_ok h
    obtain ⟨a1, -, h⟩ := bind_ok h
    obtain ⟨⟨i1, t1⟩, hg1, h⟩ := bind_ok h
    obtain ⟨p1, -, h⟩ := bind_ok h
    obtain ⟨a2, -, h⟩ := bind_ok h
    obtain ⟨⟨i2, t2⟩, hg2, h⟩ := bind_ok h
    obtain ⟨out, -, h⟩ := bind_ok h
    obtain ⟨t3, hs3, h⟩ := bind_ok h
    simp only [pure_eq_ok, Except.ok.injEq, Prod.mk.injEq] at h
    obtain ⟨-, h2⟩ := h
    rw [← h2]
    left
    show t3.currentInput = s.currentInput
    rw [setParameter_cursor hs3, getParameter_cursor hg2, getParameter_cursor hg1]
  · obtain ⟨p0, -, h⟩ := bind_ok h
    obtain ⟨a1, -, h⟩ := bind_ok h
    obtain ⟨⟨i1, t1⟩, hg1, h⟩ := bind_ok h
    simp only [pure_eq_ok, Except.ok.injEq, Prod.mk.injEq] at h
    obtain ⟨-, h2⟩ := h
    rw [← h2]
    left
    show t1.currentInput = s.currentInput
    exact getParameter_cursor hg1
  · simp only [pure_eq_ok, Except.ok.injEq, Prod.mk.injEq] at h
    obtain ⟨-, h2⟩ := h
    rw [← h2]
    left
    rfl
  · simp at h

theorem runProgram_cursor {fuel : Nat} {s s1 : ProgState} {r : Option Int}
    (h : runProgram fuel s = .ok (r, s1)) :
    s1.currentInput = s.currentInput ∨ s1.currentInput = 2 := by
  induction fuel generalizing s r with
  | zero => simp [runProgram] at h
  | succ f ih =>
      unfold runProgram at h
      obtain ⟨⟨o, t1⟩, hstep, h⟩ := bind_ok h
      cases o with
      | halt =>
          simp only [pure_eq_ok, Except.ok.injEq, Prod.mk.injEq] at h
          obtain ⟨-, h2⟩ := h
          rw [← h2]
          exact step_cursor hstep
      | output v =>
          simp only [pure_eq_ok, Except.ok.injEq, Prod.mk.injEq] at h
          obtain ⟨-, h2⟩ := h
          rw [← h2]
          exact step_cursor hstep
      | next =>
          rcases ih h with h1 | h1
          · rcases step_cursor hstep with h2 | h2
            · left
              rw [h1, h2]
            · right
              rw [h1, h2]
          · right
            exact h1



theorem toUsize_neg_bounds {t : Int} (h1 : -(2 ^ 63) ≤ t) (h2 : t < 0) :
    2 ^ 63 ≤ toUsize t ∧ toUsize t ≤ 2 ^ 64 - 1 := by
  unfold toUsize USIZE
  omega

theorem fetch_oob {mem : List Int} {i : Nat} (h : mem.length ≤ i) :
    fetch mem i = .error .indexOutOfBounds := by
  unfold fetch
  rw [dif_neg (by omega)]
  rfl

theorem ensureLen_neg {mem : List Int} {t : Int}
    (h1 : -(2 ^ 63) ≤ t) (h2 : t < 0) (hlen : mem.length < VECCAP) :
    (ensureLen mem (uadd (toUsize t) 1) = .ok mem ∧ mem.length ≤ toUsize t) ∨
    ensureLen mem (uadd (toUsize t) 1) = .error .capacityOverflow := by
  obtain ⟨hb1, hb2⟩ := toUsize_neg_bounds h1 h2
  have hcap : VECCAP = 2 ^ 60 := rfl
  by_cases hc : toUsize t = 2 ^ 64 - 1
  · left
    have hu : uadd (toUsize t) 1 = 0 := by
      unfold uadd USIZE
      omega
    rw [hu]
    constructor
    · unfold ensureLen
      rw [if_neg (by omega)]
      rfl
    · omega
  · right
    have hu : uadd (toUsize t) 1 = toUsize t + 1 := by
      unfold uadd USIZE
      omega
    rw [hu]
    unfold ensureLen
    rw [if_pos (by omega), if_pos (by omega)]
    rfl

theorem getParameter_position_neg {s : ProgState} {val : Int}
    (h1 : -(2 ^ 63) ≤ val) (h2 : val < 0) (hlen : s.memory.length < VECCAP) :
    getParameter s .Position val = .error .indexOutOfBounds ∨
    getParameter s .Position val = .error .capacityOverflow := by
  rcases ensureLen_neg h1 h2 hlen with ⟨he, hole⟩ | he
  · left
    simp only [getParameter]
    rw [he, ok_bind, fetch_oob hole]
    rfl
  · right
    simp only [getParameter]
    rw [he]
    rfl

theorem getParameter_relative_neg {s : ProgState} {val : Int}
    (h1 : -(2 ^ 63) ≤ s.relativeBase + val) (h2 : s.relativeBase + val < 0)
    (hlen : s.memory.length < VECCAP) :
    getParameter s .Relative val = .error .indexOutOfBounds ∨
    getParameter s .Relative val = .error .capacityOverflow := by
  rcases ensureLen_neg h1 h2 hlen with ⟨he, hole⟩ | he
  · left
    simp only [getParameter]
    rw [he, ok_bind, fetch_oob hole]
    rfl
  · right
    simp only [getParameter]
    rw [he]
    rfl

theorem setParameter_neg {s : ProgState} {out v : Int}
    (h1 : -(2 ^ 63) ≤ out) (h2 : out < 0) (hlen : s.memory.length < VECCAP) :
    setParameter s (toUsize out) v = .error .indexOutOfBounds ∨
    setParameter s (toUsize out) v = .error .capacityOverflow := by
  obtain ⟨hb1, hb2⟩ := toUsize_neg_bounds h1 h2
  have hcap : VECCAP = 2 ^ 60 := rfl
  rcases ensureLen_neg h1 h2 hlen with ⟨he, hole⟩ | he
  · left
    simp only [setParameter]
    rw [he, ok_bind, dif_neg (by omega)]
    rfl
  · right
    simp only [setParameter]
    rw [he]
    rfl

theorem step_oob {s : ProgState} (h : s.memory.length ≤ s.pointerIdx) :
    step s = .error .indexOutOfBounds := by
  unfold step
  rw [fetch_oob h]
  rfl

theorem step_neg_pointer {s : ProgState} {t : Int}
    (h1 : -(2 ^ 63) ≤ t) (h2 : t < 0) (hlen : s.memory.length < VECCAP) :
    step { s with pointerIdx := toUsize t } = .error .indexOutOfBounds := by
  obtain ⟨hb1, hb2⟩ := toUsize_neg_bounds h1 h2
  have hcap : VECCAP = 2 ^ 60 := rfl
  exact step_oob (by simp only []; omega)



theorem digitsFuel_getD {f : Nat} : ∀ {q : Nat}, q < 10 ^ f →
    ∀ i, (digitsFuel f q).getD i 0 = q / 10 ^ i % 10 := by
  induction f with
  | zero =>
      intro q hq i
      interval_cases q
      simp [digitsFuel]
  | succ f ih =>
      intro q hq i
      by_cases h0 : q = 0
      · subst h0
        simp [digitsFuel]
      · rw [digitsFuel, if_neg h0]
        cases i with
        | zero => simp
        | succ i =>
            have hq' : q / 10 < 10 ^ f := by
              rw [Nat.div_lt_iff_lt_mul (by norm_num)]
              calc q < 10 ^ (f + 1) := hq
              _ = 10 ^ f * 10 := pow_succ 10 f
            have := ih hq' i
            simp only [List.getD_cons_succ, this]
            rw [Nat.div_div_eq_div_mul, Nat.mul_comm 10 (10 ^ i), pow_succ]

theorem digitList_getD {q : Nat} (hq : q < 10 ^ 64) (i : Nat) :
    (digitList q).getD i 0 = q / 10 ^ i % 10 := by
  unfold digitList
  by_cases h0 : q = 0
  · subst h0
    rw [if_pos rfl]
    cases i <;> simp
  · rw [if_neg h0]
    exact digitsFuel_getD hq i

theorem listResize_length (l : List Nat) (n d : Nat) :
    (listResize l n d).length = n := by
  simp [listResize]
  omega

theorem listResize_getD (l : List Nat) (n i : Nat) (hi : i < n) :
    (listResize l n 0).getD i 0 = l.getD i 0 := by
  unfold listResize
  by_cases hc : i < (l.take n).length
  · rw [List.getD_append _ _ _ _ hc]
    rw [List.getD_eq_getElem _ _ hc, List.getElem_take]
    have hil : i < l.length := by
      simp at hc
      omega
    rw [List.getD_eq_getElem _ _ hil]
  · have hlen : l.length ≤ i := by
      simp at hc
      omega
    rw [List.getD_append_right _ _ _ _ (by omega)]
    rw [List.getD_eq_default _ _ hlen]
    by_cases hr : i - (l.take n).length < n - l.length
    · rw [List.getD_eq_getElem _ _ (by simpa using hr), List.getElem_replicate]
    · rw [List.getD_eq_default]
      simpa using hr

theorem digitToParam_ok_iff (d : Nat) :
    (∃ p, digitToParam d = .ok p) ↔ d < 3 := by
  unfold digitToParam
  split_ifs with h1 h2 h3 <;> constructor <;> intro h
  · omega
  · exact ⟨.Position, rfl⟩
  · omega
  · exact ⟨.Immediate, rfl⟩
  · omega
  · exact ⟨.Relative, rfl⟩
  · obtain ⟨p, hp⟩ := h
    simp [throw, throwThe, MonadExceptOf.throw] at hp
  · omega

theorem mapM_param_ok_iff (l : List Nat) :
    (∃ ps, l.mapM digitToParam = .ok ps) ↔ ∀ d ∈ l, d < 3 := by
  induction l with
  | nil =>
      constructor
      · intro _ d hd
        simp at hd
      · intro _
        exact ⟨[], rfl⟩
  | cons d l ih =>
      rw [List.mapM_cons]
      constructor
      · rintro ⟨ps, hps⟩
        obtain ⟨p, hp, hps⟩ := bind_ok hps
        obtain ⟨qs, hqs, -⟩ := bind_ok hps
        intro x hx
        rcases List.mem_cons.mp hx with h | h
        · subst h
          exact (digitToParam_ok_iff x).mp ⟨p, hp⟩
        · exact (ih.mp ⟨qs, hqs⟩) x h
      · intro hall
        obtain ⟨p, hp⟩ := (digitToParam_ok_iff d).mpr (hall d (List.mem_cons_self d l))
        obtain ⟨qs, hqs⟩ := ih.mpr (fun x hx => hall x (List.mem_cons_of_mem d hx))
        refine ⟨p :: qs, ?_⟩
        rw [hp, ok_bind, hqs, ok_bind]
        rfl

theorem mapM_param_length {l : List Nat} {ps : List Parameter}
    (h : l.mapM digitToParam = .ok ps) : ps.length = l.length := by
  induction l generalizing ps with
  | nil =>
      rw [List.mapM_nil] at h
      cases h
      rfl
  | cons d l ih =>
      rw [List.mapM_cons] at h
      obtain ⟨p, hp, h⟩ := bind_ok h
      obtain ⟨qs, hqs, h⟩ := bind_ok h
      simp only [pure_eq_ok, Except.ok.injEq] at h
      rw [← h]
      simp [ih hqs]

theorem digitsFuel_length_le : ∀ (f q i : Nat), q < 10 ^ i →
    (digitsFuel f q).length ≤ i := by
  intro f
  induction f with
  | zero =>
      intro q i _
      exact Nat.zero_le i
  | succ f ih =>
      intro q i hq
      by_cases h0 : q = 0
      · subst h0
        simp [digitsFuel]
      · rw [digitsFuel, if_neg h0]
        cases i with
        | zero =>
            simp at hq
            omega
        | succ i =>
            have hq' : q / 10 < 10 ^ i := by
              rw [Nat.div_lt_iff_lt_mul (by norm_num)]
              calc q < 10 ^ (i + 1) := hq
              _ = 10 ^ i * 10 := pow_succ 10 i
            have := ih (q / 10) i hq'
            simp only [List.length_cons]
            omega

theorem digitList_getD_zero (q i : Nat) (hq : q < 10 ^ i) :
    (digitList q).getD i 0 = 0 := by
  unfold digitList
  by_cases h0 : q = 0
  · subst h0
    rw [if_pos rfl]
    cases i <;> simp
  · rw [if_neg h0]
    exact List.getD_eq_default _ _ (digitsFuel_length_le 64 q i hq)

theorem mapM_param_get {l : List Nat} {ps : List Parameter}
    (h : l.mapM digitToParam = .ok ps) :
    ∀ (i : Nat) (hl : i < l.length) (hp : i < ps.length),
      digitToParam (l.get ⟨i, hl⟩) = .ok (ps.get ⟨i, hp⟩) := by
  induction l generalizing ps with
  | nil =>
      intro i hl
      simp at hl
  | cons d l ih =>
      rw [List.mapM_cons] at h
      obtain ⟨p, hp0, h⟩ := bind_ok h
      obtain ⟨qs, hqs, h⟩ := bind_ok h
      simp only [pure_eq_ok, Except.ok.injEq] at h
      subst h
      intro i hl hp
      cases i with
      | zero =>
          simpa using hp0
      | succ i =>
          simpa using ih hqs i (by simpa using hl) (by simpa using hp)



theorem Instruction.new_eq (number : Nat) :
    Instruction.new number =
      paramsLength (number % 100) >>= fun k =>
      (listResize (digitList (number / 100)) k 0).mapM digitToParam >>= fun parameters =>
      pure ⟨number % 100, parameters⟩ := rfl

theorem instruction_ok_iff (n k : Nat) (hn : n < 2 ^ 64)
    (hk : paramsLength (n % 100) = .ok k) :
    (∃ instr, Instruction.new n = .ok instr) ↔
    ∀ i < k, n / 100 / 10 ^ i % 10 < 3 := by
  have hq : n / 100 < 10 ^ 64 := by
    have h2 : (2 : Nat) ^ 64 < 10 ^ 64 := by norm_num
    have h3 : n / 100 ≤ n := Nat.div_le_self n 100
    omega
  rw [Instruction.new_eq, hk, ok_bind]
  constructor
  · rintro ⟨instr, hinstr⟩
    obtain ⟨ps, hps, -⟩ := bind_ok hinstr
    have hall := (mapM_param_ok_iff _).mp ⟨ps, hps⟩
    intro i hi
    have hilen : i < (listResize (digitList (n / 100)) k 0).length := by
      rw [listResize_length]
      exact hi
    have hmem : (listResize (digitList (n / 100)) k 0).getD i 0 ∈
        listResize (digitList (n / 100)) k 0 := by
      rw [List.getD_eq_getElem _ _ hilen]
      exact List.getElem_mem _
    have hlt := hall _ hmem
    rwa [listResize_getD _ _ _ hi, digitList_getD hq] at hlt
  · intro hdig
    have hall : ∀ d ∈ listResize (digitList (n / 100)) k 0, d < 3 := by
      intro d hd
      obtain ⟨i, hi, hget⟩ := List.mem_iff_getElem.mp hd
      have hik : i < k := by
        rwa [listResize_length] at hi
      rw [← hget, ← List.getD_eq_getElem _ _ hi, listResize_getD _ _ _ hik,
        digitList_getD hq]
      exact hdig i hik
    obtain ⟨ps, hps⟩ := (mapM_param_ok_iff _).mpr hall
    refine ⟨⟨n % 100, ps⟩, ?_⟩
    rw [hps, ok_bind]
    rfl

set_option maxHeartbeats 1000000 in
theorem paramsLength_cases {m k : Nat} (h : paramsLength m = .ok k) :
    (m = 1 ∧ k = 3) ∨ (m = 2 ∧ k = 3) ∨ (m = 3 ∧ k = 1) ∨ (m = 4 ∧ k = 1) ∨
    (m = 5 ∧ k = 2) ∨ (m = 6 ∧ k = 2) ∨ (m = 7 ∧ k = 3) ∨ (m = 8 ∧ k = 3) ∨
    (m = 9 ∧ k = 1) ∨ (m = 99 ∧ k = 0) := by
  unfold paramsLength at h
  split_ifs at h with h1 h2 h3 h4 h5 h6 h7 h8 h9 h10 <;>
    simp only [pure_eq_ok, Except.ok.injEq] at h <;> omega

theorem instruction_params_length (n : Nat) (instr : Instruction)
    (h : Instruction.new n = .ok instr) :
    instr.parameters.length =
      (if instr.opcode = 1 ∨ instr.opcode = 2 ∨ instr.opcode = 7 ∨ instr.opcode = 8
        then 3
       else if instr.opcode = 3 ∨ instr.opcode = 4 ∨ instr.opcode = 9 then 1
       else if instr.opcode = 5 ∨ instr.opcode = 6 then 2
       else 0) := by
  rw [Instruction.new_eq] at h
  obtain ⟨k, hk, h⟩ := bind_ok h
  obtain ⟨ps, hps, h⟩ := bind_ok h
  simp only [pure_eq_ok, Except.ok.injEq] at h
  subst h
  have hlen : ps.length = k := by
    rw [mapM_param_length hps, listResize_length]
  rcases paramsLength_cases hk with h | h | h | h | h | h | h | h | h | h <;>
    obtain ⟨hm, hkv⟩ := h <;>
    subst hkv <;>
    simp [hm, hlen]



theorem if_lt_eq_max (a b : Int) : (if a < b then b else a) = max a b := by
  by_cases h : a < b
  · rw [if_pos h, max_eq_right h.le]
  · rw [if_neg h, max_eq_left (le_of_not_lt h)]

theorem trials_foldlM (mem : List Int) (fuel : Nat) (v : List Nat → Int) :
    ∀ (l : List (List Nat)) (acc : Int),
      (∀ p ∈ l, trial mem p fuel = .ok (v p)) →
      (l.foldlM (fun acc p => do
          let r ← trial mem p fuel
          pure (if acc < r then r else acc)) acc : Except RunError Int) =
        .ok (l.foldl (fun a p => max a (v p)) acc) := by
  intro l
  induction l with
  | nil =>
      intro acc _
      rfl
  | cons x l ih =>
      intro acc hall
      rw [List.foldlM_cons, hall x (List.mem_cons_self x l), ok_bind, pure_eq_ok,
        ok_bind, ih _ (fun p hp => hall p (List.mem_cons_of_mem x hp))]
      rw [List.foldl_cons, if_lt_eq_max]

theorem q2_eq_max (mem : List Int) (fuel : Nat) (v : List Nat → Int)
    (hall : ∀ p ∈ permsOf [0, 1, 2, 3, 4], trial mem p fuel = .ok (v p)) :
    q2 mem fuel =
      .ok (toUsize ((permsOf [0, 1, 2, 3, 4]).foldl (fun a p => max a (v p)) 0)) := by
  have hperm : (getPermutations 5).Perm (permsOf [0, 1, 2, 3, 4]) := by decide
  have hall' : ∀ p ∈ getPermutations 5, trial mem p fuel = .ok (v p) :=
    fun p hp => hall p (hperm.subset hp)
  unfold q2
  rw [trials_foldlM mem fuel v _ 0 hall', ok_bind]
  rw [hperm.foldl_eq' (fun x _ y _ z => Max.right_comm z (v x) (v y)) 0]
  rfl



theorem growRead {mem : List Int} {idx : Nat} (hlen : mem.length ≤ idx)
    (hcap : idx + 1 < VECCAP) :
    ensureLen mem (uadd idx 1) =
      .ok (mem ++ List.replicate (idx + 1 - mem.length) 0) ∧
    fetch (mem ++ List.replicate (idx + 1 - mem.length) 0) idx = .ok 0 := by
  have hcap' : VECCAP = 2 ^ 60 := rfl
  have hu : uadd idx 1 = idx + 1 := by
    unfold uadd USIZE
    omega
  constructor
  · rw [hu]
    unfold ensureLen
    rw [if_pos (by omega), if_neg (by omega)]
    rfl
  · unfold fetch
    have hl : idx < (mem ++ List.replicate (idx + 1 - mem.length) 0).length := by
      simp
      omega
    rw [dif_pos hl]
    simp only [pure_eq_ok, Except.ok.injEq]
    rw [List.get_eq_getElem, List.getElem_append_right hlen]
    exact List.getElem_replicate 0 _

theorem getParameter_grow_position (s : ProgState) (val : Int)
    (hlen : s.memory.length ≤ toUsize val) (hcap : toUsize val + 1 < VECCAP) :
    getParameter s .Position val =
      .ok (0, { s with
        memory := s.memory ++ List.replicate (toUsize val + 1 - s.memory.length) 0 }) := by
  obtain ⟨he, hf⟩ := growRead hlen hcap
  simp only [getParameter]
  rw [he, ok_bind, hf, ok_bind]
  rfl

theorem getParameter_grow_relative (s : ProgState) (val : Int)
    (hlen : s.memory.length ≤ toUsize (s.relativeBase + val))
    (hcap : toUsize (s.relativeBase + val) + 1 < VECCAP) :
    getParameter s .Relative val =
      .ok (0, { s with
        memory := s.memory ++
          List.replicate (toUsize (s.relativeBase + val) + 1 - s.memory.length) 0 }) := by
  obtain ⟨he, hf⟩ := growRead hlen hcap
  simp only [getParameter]
  rw [he, ok_bind, hf, ok_bind]
  rfl



theorem writeDest1 (s s1 s2 s3 : ProgState) (n a1 v1 a2 v2 out : Int)
    (p0 p1 p2 : Parameter)
    (h0 : fetch s.memory s.pointerIdx = .ok n)
    (h1 : Instruction.new (toUsize n) = .ok ⟨1, [p0, p1, p2]⟩)
    (h2 : fetch s.memory (uadd s.pointerIdx 1) = .ok a1)
    (h3 : getParameter s p0 a1 = .ok (v1, s1))
    (h4 : fetch s1.memory (uadd s.pointerIdx 2) = .ok a2)
    (h5 : getParameter s1 p1 a2 = .ok (v2, s2))
    (h6 : fetch s2.memory (uadd s.pointerIdx 3) = .ok out)
    (h7 : setParameter s2 (toUsize out) (v1 + v2) = .ok s3) :
    step s = .ok (.next, { s3 with pointerIdx := uadd s3.pointerIdx 4 }) := by
  unfold step
  rw [h0]
  simp only [ok_bind]
  rw [h1]
  simp only [ok_bind]
  simp only [paramAt, List.length_cons, List.length_nil]
  norm_num
  rw [h2]
  simp only [ok_bind]
  rw [h3]
  simp only [ok_bind]
  rw [h4]
  simp only [ok_bind]
  rw [h5]
  simp only [ok_bind]
  rw [h6]
  simp only [ok_bind]
  rw [h7]
  simp only [ok_bind, pure_eq_ok]

theorem writeDest2 (s s1 s2 s3 : ProgState) (n a1 v1 a2 v2 out : Int)
    (p0 p1 p2 : Parameter)
    (h0 : fetch s.memory s.pointerIdx = .ok n)
    (h1 : Instruction.new (toUsize n) = .ok ⟨2, [p0, p1, p2]⟩)
    (h2 : fetch s.memory (uadd s.pointerIdx 1) = .ok a1)
    (h3 : getParameter s p0 a1 = .ok (v1, s1))
    (h4 : fetch s1.memory (uadd s.pointerIdx 2) = .ok a2)
    (h5 : getParameter s1 p1 a2 = .ok (v2, s2))
    (h6 : fetch s2.memory (uadd s.pointerIdx 3) = .ok out)
    (h7 : setParameter s2 (toUsize out) (v1 * v2) = .ok s3) :
    step s = .ok (.next, { s3 with pointerIdx := uadd s3.pointerIdx 4 }) := by
  unfold step
  rw [h0]
  simp only [ok_bind]
  rw [h1]
  simp only [ok_bind]
  simp only [paramAt, List.length_cons, List.length_nil]
  norm_num
  rw [h2]
  simp only [ok_bind]
  rw [h3]
  simp only [ok_bind]
  rw [h4]
  simp only [ok_bind]
  rw [h5]
  simp only [ok_bind]
  rw [h6]
  simp only [ok_bind]
  rw [h7]
  simp only [ok_bind, pure_eq_ok]

theorem writeDest7 (s s1 s2 s3 : ProgState) (n a1 v1 a2 v2 out : Int)
    (p0 p1 p2 : Parameter)
    (h0 : fetch s.memory s.pointerIdx = .ok n)
    (h1 : Instruction.new (toUsize n) = .ok ⟨7, [p0, p1, p2]⟩)
    (h2 : fetch s.memory (uadd s.pointerIdx 1) = .ok a1)
    (h3 : getParameter s p0 a1 = .ok (v1, s1))
    (h4 : fetch s1.memory (uadd s.pointerIdx 2) = .ok a2)
    (h5 : getParameter s1 p1 a2 = .ok (v2, s2))
    (h6 : fetch s2.memory (uadd s.pointerIdx 3) = .ok out)
    (h7 : setParameter s2 (toUsize out) (if v1 < v2 then (1 : Int) else 0) = .ok s3) :
    step s = .ok (.next, { s3 with pointerIdx := uadd s3.pointerIdx 4 }) := by
  unfold step
  rw [h0]
  simp only [ok_bind]
  rw [h1]
  simp only [ok_bind]
  simp only [paramAt, List.length_cons, List.length_nil]
  norm_num
  rw [h2]
  simp only [ok_bind]
  rw [h3]
  simp only [ok_bind]
  rw [h4]
  simp only [ok_bind]
  rw [h5]
  simp only [ok_bind]
  rw [h6]
  simp only [ok_bind]
  rw [h7]
  simp only [ok_bind, pure_eq_ok]

theorem writeDest8 (s s1 s2 s3 : ProgState) (n a1 v1 a2 v2 out : Int)
    (p0 p1 p2 : Parameter)
    (h0 : fetch s.memory s.pointerIdx = .ok n)
    (h1 : Instruction.new (toUsize n) = .ok ⟨8, [p0, p1, p2]⟩)
    (h2 : fetch s.memory (uadd s.pointerIdx 1) = .ok a1)
    (h3 : getParameter s p0 a1 = .ok (v1, s1))
    (h4 : fetch s1.memory (uadd s.pointerIdx 2) = .ok a2)
    (h5 : getParameter s1 p1 a2 = .ok (v2, s2))
    (h6 : fetch s2.memory (uadd s.pointerIdx 3) = .ok out)
    (h7 : setParameter s2 (toUsize out) (if v1 = v2 then (1 : Int) else 0) = .ok s3) :
    step s = .ok (.next, { s3 with pointerIdx := uadd s3.pointerIdx 4 }) := by
  unfold step
  rw [h0]
  simp only [ok_bind]
  rw [h1]
  simp only [ok_bind]
  simp only [paramAt, List.length_cons, List.length_nil]
  norm_num
  rw [h2]
  simp only [ok_bind]
  rw [h3]
  simp only [ok_bind]
  rw [h4]
  simp only [ok_bind]
  rw [h5]
  simp only [ok_bind]
  rw [h6]
  simp only [ok_bind]
  rw [h7]
  simp only [ok_bind, pure_eq_ok]

theorem writeDest3 (s s1 s2 : ProgState) (n out input : Int) (ps : List Parameter)
    (h0 : fetch s.memory s.pointerIdx = .ok n)
    (h1 : Instruction.new (toUsize n) = .ok ⟨3, ps⟩)
    (h2 : fetch s.memory (uadd s.pointerIdx 1) = .ok out)
    (h3 : getInput s = .ok (input, s1))
    (h4 : setParameter s1 (toUsize out) input = .ok s2) :
    step s = .ok (.next, { s2 with pointerIdx := uadd s2.pointerIdx 2 }) := by
  unfold step
  rw [h0]
  simp only [ok_bind]
  rw [h1]
  simp only [ok_bind]
  rw [h2]
  simp only [ok_bind]
  rw [h3]
  simp only [ok_bind]
  rw [h4]
  simp only [ok_bind, pure_eq_ok]


theorem runHalt (s : ProgState) (fuel : Nat) (n : Int)
    (h1 : fetch s.memory s.pointerIdx = .ok n)
    (h2 : toUsize n % 100 = 99) :
    runProgram (fuel + 1) s = .ok (none, s) := by
  have hdec : Instruction.new (toUsize n) = .ok ⟨99, []⟩ := by
    unfold Instruction.new paramsLength
    rw [h2]
    norm_num [digitList, listResize]
    rfl
  unfold runProgram step
  rw [h1]
  simp only [ok_bind]
  rw [hdec]
  rfl

theorem runOutput (s : ProgState) (fuel : Nat) (n : Int) (ps : List Parameter) (v : Int)
    (h1 : fetch s.memory s.pointerIdx = .ok n)
    (h2 : Instruction.new (toUsize n) = .ok ⟨4, ps⟩)
    (h3 : fetch s.memory (uadd s.pointerIdx 1) = .ok v) :
    runProgram (fuel + 1) s = .ok (some v, { s with pointerIdx := uadd s.pointerIdx 2 }) := by
  unfold runProgram step
  rw [h1]
  simp only [ok_bind]
  rw [h2]
  simp only [ok_bind]
  rw [h3]
  simp only [ok_bind, getParameter, pure_eq_ok]

theorem reachable_cursor {s : ProgState} (h : Reachable s) :
    s.currentInput = 1 ∨ s.currentInput = 2 := by
  induction h with
  | new mem a b => left; rfl
  | set v _ ih => exact ih
  | input _ hg => right; exact getInput_cursor hg
  | run _ hr ih =>
      rcases runProgram_cursor hr with h1 | h1
      · rw [h1]; exact ih
      · right; exact h1

theorem getInput_of_reachable {s : ProgState} (h : Reachable s) :
    getInput s = .ok ((if s.currentInput = 1 then s.firstInput else s.secondInput),
      { s with currentInput := 2 }) := by
  obtain ⟨mem, fi, si, ci, pi, rb⟩ := s
  rcases reachable_cursor h with h1 | h1 <;> dsimp only at h1 <;> subst h1 <;>
    simp [getInput]


theorem foldl_max_init_le (v : List Nat → Int) :
    ∀ (l : List (List Nat)) (acc : Int),
      acc ≤ l.foldl (fun a q => max a (v q)) acc := by
  intro l
  induction l with
  | nil => intro acc; exact le_refl acc
  | cons x l ih =>
      intro acc
      rw [List.foldl_cons]
      exact le_trans (le_max_left acc (v x)) (ih (max acc (v x)))

theorem foldl_max_le (v : List Nat → Int) :
    ∀ (l : List (List Nat)) (acc : Int) (p : List Nat), p ∈ l →
      v p ≤ l.foldl (fun a q => max a (v q)) acc := by
  intro l
  induction l with
  | nil =>
      intro acc p hp
      simp at hp
  | cons x l ih =>
      intro acc p hp
      rw [List.foldl_cons]
      rcases List.mem_cons.mp hp with h | h
      · subst h
        exact le_trans (le_max_right acc (v p)) (foldl_max_init_le v l _)
      · exact ih _ p h

theorem foldl_max_attains (v : List Nat → Int) :
    ∀ (l : List (List Nat)) (acc : Int),
      l.foldl (fun a q => max a (v q)) acc = acc ∨
      ∃ p ∈ l, l.foldl (fun a q => max a (v q)) acc = v p := by
  intro l
  induction l with
  | nil => intro acc; left; rfl
  | cons x l ih =>
      intro acc
      rw [List.foldl_cons]
      rcases ih (max acc (v x)) with h | h
      · rcases max_choice acc (v x) with hm | hm
        · left
          rw [h, hm]
        · right
          exact ⟨x, List.mem_cons_self x l, by rw [h, hm]⟩
      · obtain ⟨p, hp, hep⟩ := h
        right
        exact ⟨p, List.mem_cons_of_mem x hp, hep⟩


/-! ## Claim theorems -/


set_option maxRecDepth 1000000 in
/-- Claim C1 (code bug): the claim states that executing the program
`109,1,204,-1,1001,100,1,100,1008,100,16,101,1006,101,0,99` produces as its
outputs exactly the 16 integers of the program itself (the quine property
asserted by the spec and by test `day09_q1_test3`).  The code does not do
this: opcode 4 ignores its decoded addressing mode and returns the raw
operand (`get_parameter(Immediate, …)`), so the program outputs sixteen
copies of `-1` instead; the test's assertion `output == new_program` fails. -/
theorem claim1_quine_fails :
    outputsOf 300 [109, 1, 204, -1, 1001, 100, 1, 100, 1008, 100, 16, 101, 1006, 101, 0, 99] 1 1 =
      .ok (List.replicate 16 (-1)) ∧
    List.replicate 16 (-1) ≠
      ([109, 1, 204, -1, 1001, 100, 1, 100, 1008, 100, 16, 101, 1006, 101, 0, 99] : List Int) := by
  constructor
  · decide
  · decide

/-- Claim C3 (confirmed): when `run_program` executes opcode 4 it returns
`Some v` where `v` is `read(Immediate, operand)`, i.e. the raw operand at
`pointer + 1`, without touching memory, and the instruction pointer is
advanced by 2 before returning; consequently `104,1125899906842624,99`
outputs exactly `1125899906842624`. -/
theorem claim3_output_immediate :
    (∀ (s : ProgState) (fuel : Nat) (n : Int) (ps : List Parameter) (v : Int),
      fetch s.memory s.pointerIdx = .ok n →
      Instruction.new (toUsize n) = .ok ⟨4, ps⟩ →
      fetch s.memory (uadd s.pointerIdx 1) = .ok v →
      runProgram (fuel + 1) s =
        .ok (some v, { s with pointerIdx := uadd s.pointerIdx 2 })) ∧
    outputsOf 100 [104, 1125899906842624, 99] 1 1 = .ok [1125899906842624] := by
  constructor
  · exact runOutput
  · decide

/-- Witness for C3 at the test program `104,1125899906842624,99`. -/
theorem claim3_witness :
    (fetch (ProgState.new [104, 1125899906842624, 99] 1 1).memory
        (ProgState.new [104, 1125899906842624, 99] 1 1).pointerIdx = .ok 104 ∧
      Instruction.new (toUsize 104) = .ok ⟨4, [.Immediate]⟩ ∧
      fetch (ProgState.new [104, 1125899906842624, 99] 1 1).memory
        (uadd (ProgState.new [104, 1125899906842624, 99] 1 1).pointerIdx 1) =
        .ok 1125899906842624) ∧
    runProgram 1 (ProgState.new [104, 1125899906842624, 99] 1 1) =
      .ok (some 1125899906842624,
        { ProgState.new [104, 1125899906842624, 99] 1 1 with
            pointerIdx := uadd (ProgState.new [104, 1125899906842624, 99] 1 1).pointerIdx 2 }) :=
  ⟨⟨by decide, by decide, by decide⟩,
    claim3_output_immediate.1 (ProgState.new [104, 1125899906842624, 99] 1 1) 0
      104 [.Immediate] 1125899906842624 (by decide) (by decide) (by decide)⟩

/-- Claim C10 (confirmed): for every `Program` whose memory value at the
instruction pointer decodes to opcode 99, `run_program` returns `Ok(None)`
and leaves the state (in particular the entire memory) unchanged. -/
theorem claim10_halt :
    ∀ (s : ProgState) (fuel : Nat) (n : Int),
      fetch s.memory s.pointerIdx = .ok n →
      toUsize n % 100 = 99 →
      runProgram (fuel + 1) s = .ok (none, s) :=
  runHalt

/-- Witness for C10 on the one-instruction program `99`. -/
theorem claim10_witness :
    (fetch (ProgState.new [99] 0 0).memory (ProgState.new [99] 0 0).pointerIdx =
        .ok 99 ∧
      toUsize 99 % 100 = 99) ∧
    runProgram 1 (ProgState.new [99] 0 0) = .ok (none, ProgState.new [99] 0 0) :=
  ⟨⟨by decide, by decide⟩,
    claim10_halt (ProgState.new [99] 0 0) 0 99 (by decide) (by decide)⟩

/-- Claim C5 (confirmed): for a `Program` built by `Program::new`, the
first `get_input` call returns `first_input` and unconditionally advances
the cursor; on every state reachable through the public interface
(`new`, `set_input`, `get_input`, `run_program`) `get_input` succeeds --
so the `UnknownInputSlot` branch is unreachable -- returning `first_input`
exactly when the cursor is still 1 and the current `second_input`
otherwise, and always leaving the cursor at 2. -/
theorem claim5_input_cursor :
    ∀ (mem : List Int) (a b : Int),
      getInput (ProgState.new mem a b) =
        .ok (a, { ProgState.new mem a b with currentInput := 2 }) ∧
      ∀ s : ProgState, Reachable s →
        getInput s = .ok ((if s.currentInput = 1 then s.firstInput else s.secondInput),
          { s with currentInput := 2 }) := by
  intro mem a b
  constructor
  · rfl
  · intro s hs
    exact getInput_of_reachable hs

/-- Witness for C5: first call on `new [99] 7 0` yields 7; the second call
(on the reachable advanced state) yields the second input 0, not 7. -/
theorem claim5_witness :
    getInput (ProgState.new [99] 7 0) = .ok (7, ⟨[99], 7, 0, 2, 0, 0⟩) ∧
    getInput (⟨[99], 7, 0, 2, 0, 0⟩ : ProgState) = .ok (0, ⟨[99], 7, 0, 2, 0, 0⟩) := by
  constructor
  · exact (claim5_input_cursor [99] 7 0).1
  · exact (claim5_input_cursor [99] 7 0).2 ⟨[99], 7, 0, 2, 0, 0⟩
      (@Reachable.input (ProgState.new [99] 7 0) ⟨[99], 7, 0, 2, 0, 0⟩ 7
        (Reachable.new [99] 7 0) (by decide))

/-- Counterexample to C6 as stated: `Instruction::new(30003)` decodes
successfully even though the digit string of `30003 / 100 = 300` contains
the mode digit 3 (at position 2, outside `{0,1,2}`): `Vec::resize`
truncates the digit list to the opcode's parameter count (1 for opcode 3)
before validation, so out-of-range digits beyond that count are ignored,
contradicting the claimed "fails iff some mode digit is invalid". -/
theorem claim6_counterexample :
    Instruction.new 30003 = .ok ⟨3, [.Position]⟩ ∧
    30003 / 100 / 10 ^ 2 % 10 = 3 ∧ ¬(3 : Nat) < 3 := by
  constructor
  · decide
  · constructor
    · decide
    · decide

/-- Claim C6 (amended): for `n < 2^64` with a recognized opcode
(`paramsLength (n % 100) = ok k`), decoding succeeds iff every one of the
FIRST `k` mode digits of `n / 100` (least-significant first, missing
digits read as 0) lies in `{0,1,2}`; digits beyond position `k` are
discarded by the resize and never checked. -/
theorem claim6_amended :
    ∀ (n k : Nat), n < 2 ^ 64 → paramsLength (n % 100) = .ok k →
      ((∃ instr, Instruction.new n = .ok instr) ↔
        ∀ i < k, n / 100 / 10 ^ i % 10 < 3) :=
  instruction_ok_iff

/-- Witness for C6 at `n = 30003` (opcode 3, one parameter slot). -/
theorem claim6_witness :
    (30003 < 2 ^ 64 ∧ paramsLength (30003 % 100) = .ok 1) ∧
    ((∃ instr, Instruction.new 30003 = .ok instr) ↔
      ∀ i < 1, 30003 / 100 / 10 ^ i % 10 < 3) :=
  ⟨⟨by decide, by decide⟩, claim6_amended 30003 1 (by decide) (by decide)⟩

/-- Claim C7 (confirmed): whenever `Instruction::new` succeeds, the decoded
parameter list has length exactly 3 for opcodes {1,2,7,8}, 1 for {3,4,9},
2 for {5,6} and 0 for 99, regardless of how many mode digits appear in the
raw integer; and every parameter slot whose mode digit is missing from
`n / 100` (i.e. every slot at a position `i` with `n / 100 < 10 ^ i`,
covering all missing trailing digits) defaults to Position mode via the
zero-padding resize. -/
theorem claim7_param_count :
    ∀ (n : Nat) (instr : Instruction), Instruction.new n = .ok instr →
      instr.parameters.length =
        (if instr.opcode = 1 ∨ instr.opcode = 2 ∨ instr.opcode = 7 ∨ instr.opcode = 8
          then 3
         else if instr.opcode = 3 ∨ instr.opcode = 4 ∨ instr.opcode = 9 then 1
         else if instr.opcode = 5 ∨ instr.opcode = 6 then 2
         else 0) ∧
      ∀ (i : Nat) (h : i < instr.parameters.length), n / 100 < 10 ^ i →
        instr.parameters.get ⟨i, h⟩ = .Position := by
  intro n instr hnew
  refine ⟨instruction_params_length n instr hnew, ?_⟩
  rw [Instruction.new_eq] at hnew
  obtain ⟨k, hk, hnew⟩ := bind_ok hnew
  obtain ⟨ps, hps, hnew⟩ := bind_ok hnew
  simp only [pure_eq_ok, Except.ok.injEq] at hnew
  subst hnew
  intro i h hmiss
  dsimp only at h ⊢
  have hlen : ps.length = k := by
    rw [mapM_param_length hps, listResize_length]
  have hik : i < k := by omega
  have hl : i < (listResize (digitList (n / 100)) k 0).length := by
    rw [listResize_length]
    omega
  have hget := mapM_param_get hps i hl h
  have hzero : (listResize (digitList (n / 100)) k 0).get ⟨i, hl⟩ = 0 := by
    rw [List.get_eq_getElem, ← List.getD_eq_getElem _ 0 hl,
      listResize_getD _ _ _ hik, digitList_getD_zero _ _ hmiss]
  rw [hzero] at hget
  simp only [digitToParam] at hget
  norm_num at hget
  exact hget.symm

/-- Witness for C7 at `n = 1002` (opcode 2 with mode digits `10`: the
parameter list is 3 long and the missing third digit yields Position,
exercised at `i = 2` where `1002 / 100 = 10 < 10 ^ 2`). -/
theorem claim7_witness :
    Instruction.new 1002 = .ok ⟨2, [.Position, .Immediate, .Position]⟩ ∧
    ((⟨2, [.Position, .Immediate, .Position]⟩ : Instruction).parameters.length =
      (if (⟨2, [.Position, .Immediate, .Position]⟩ : Instruction).opcode = 1 ∨
          (⟨2, [.Position, .Immediate, .Position]⟩ : Instruction).opcode = 2 ∨
          (⟨2, [.Position, .Immediate, .Position]⟩ : Instruction).opcode = 7 ∨
          (⟨2, [.Position, .Immediate, .Position]⟩ : Instruction).opcode = 8
        then 3
       else if (⟨2, [.Position, .Immediate, .Position]⟩ : Instruction).opcode = 3 ∨
          (⟨2, [.Position, .Immediate, .Position]⟩ : Instruction).opcode = 4 ∨
          (⟨2, [.Position, .Immediate, .Position]⟩ : Instruction).opcode = 9 then 1
       else if (⟨2, [.Position, .Immediate, .Position]⟩ : Instruction).opcode = 5 ∨
          (⟨2, [.Position, .Immediate, .Position]⟩ : Instruction).opcode = 6 then 2
       else 0) ∧
      ∀ (i : Nat)
        (h : i < (⟨2, [.Position, .Immediate, .Position]⟩ : Instruction).parameters.length),
        1002 / 100 < 10 ^ i →
        (⟨2, [.Position, .Immediate, .Position]⟩ : Instruction).parameters.get ⟨i, h⟩ =
          .Position) :=
  ⟨by decide,
    claim7_param_count 1002 ⟨2, [.Position, .Immediate, .Position]⟩ (by decide)⟩



/-- Claim C2 (confirmed): every address that resolves to a negative `i64`
value -- a Position-mode read, a Relative-mode read whose
`relative_base + operand` is negative, a write destination, or a jump
target -- makes the run fail.  The `as usize` cast wraps the value to at
least `2^63`, far beyond any attainable `Vec` length, so the access
aborts: either `Vec::resize` panics with capacity overflow, or (for
resolved value `-1`, where `idx + 1` itself wraps to 0 and skips the
resize) the bounds-checked indexing panics; a jump to a negative target
makes the next instruction fetch fail the bounds check.  Execution never
continues silently at the wrapped index. -/
theorem claim2_negative_address_fails :
    (∀ (s : ProgState) (val : Int), -(2 ^ 63) ≤ val → val < 0 →
      s.memory.length < VECCAP →
      getParameter s .Position val = .error .indexOutOfBounds ∨
      getParameter s .Position val = .error .capacityOverflow) ∧
    (∀ (s : ProgState) (val : Int), -(2 ^ 63) ≤ s.relativeBase + val →
      s.relativeBase + val < 0 → s.memory.length < VECCAP →
      getParameter s .Relative val = .error .indexOutOfBounds ∨
      getParameter s .Relative val = .error .capacityOverflow) ∧
    (∀ (s : ProgState) (out v : Int), -(2 ^ 63) ≤ out → out < 0 →
      s.memory.length < VECCAP →
      setParameter s (toUsize out) v = .error .indexOutOfBounds ∨
      setParameter s (toUsize out) v = .error .capacityOverflow) ∧
    (∀ (s : ProgState) (t : Int), -(2 ^ 63) ≤ t → t < 0 →
      s.memory.length < VECCAP →
      step { s with pointerIdx := toUsize t } = .error .indexOutOfBounds) :=
  ⟨fun _ _ h1 h2 h3 => getParameter_position_neg h1 h2 h3,
   fun _ _ h1 h2 h3 => getParameter_relative_neg h1 h2 h3,
   fun _ _ v h1 h2 h3 => @setParameter_neg _ _ v h1 h2 h3,
   fun _ _ h1 h2 h3 => step_neg_pointer h1 h2 h3⟩

/-- Witness for C2 on the one-instruction program `99`: a Position read of
address `-1`, a Relative read resolving to `-1`, a write to `-2`, and a
jump target of `-1` each fail. -/
theorem claim2_witness :
    ((-(2 ^ 63) : Int) ≤ -1 ∧ (-1 : Int) < 0 ∧
      (ProgState.new [99] 0 0).memory.length < VECCAP) ∧
    (getParameter (ProgState.new [99] 0 0) .Position (-1) = .error .indexOutOfBounds ∨
      getParameter (ProgState.new [99] 0 0) .Position (-1) = .error .capacityOverflow) ∧
    (getParameter (ProgState.new [99] 0 0) .Relative (-1) = .error .indexOutOfBounds ∨
      getParameter (ProgState.new [99] 0 0) .Relative (-1) = .error .capacityOverflow) ∧
    (setParameter (ProgState.new [99] 0 0) (toUsize (-2)) 5 = .error .indexOutOfBounds ∨
      setParameter (ProgState.new [99] 0 0) (toUsize (-2)) 5 = .error .capacityOverflow) ∧
    step { ProgState.new [99] 0 0 with pointerIdx := toUsize (-1) } =
      .error .indexOutOfBounds :=
  ⟨⟨by decide, by decide, by decide⟩,
   claim2_negative_address_fails.1 (ProgState.new [99] 0 0) (-1)
     (by decide) (by decide) (by decide),
   claim2_negative_address_fails.2.1 (ProgState.new [99] 0 0) (-1)
     (by decide) (by decide) (by decide),
   claim2_negative_address_fails.2.2.1 (ProgState.new [99] 0 0) (-2) 5
     (by decide) (by decide) (by decide),
   claim2_negative_address_fails.2.2.2 (ProgState.new [99] 0 0) (-1)
     (by decide) (by decide) (by decide)⟩

/-- Counterexample to C4 as stated: in `109,3,21101,5,6,0,99` the add
instruction `21101` decodes with destination mode Relative and the
relative base is 3 when it executes, so under the claim the write target
would be `relative_base + 0 = 3`; the code instead writes `5 + 6 = 11`
straight to absolute address 0, leaving address 3 unchanged at 5. -/
theorem claim4_counterexample :
    Instruction.new 21101 = .ok ⟨1, [.Immediate, .Immediate, .Relative]⟩ ∧
    runProgram 3 (ProgState.new [109, 3, 21101, 5, 6, 0, 99] 1 1) =
      .ok (none, ⟨[11, 3, 21101, 5, 6, 0, 99], 1, 1, 1, 6, 3⟩) ∧
    ([11, 3, 21101, 5, 6, 0, 99] : List Int).getD 0 0 = 11 ∧
    ([11, 3, 21101, 5, 6, 0, 99] : List Int).getD 3 0 = 5 := by
  refine ⟨by decide, by decide, by decide, by decide⟩

/-- Claim C4 (amended): for every write-producing opcode (1, 2, 3, 7, 8)
the destination is always the raw operand cast to `usize`, used directly
as an absolute address; the decoded addressing mode of the destination
slot (including Relative) is ignored and `relative_base` is never added. -/
theorem claim4_amended :
    (∀ (s s1 s2 s3 : ProgState) (n a1 v1 a2 v2 out : Int) (p0 p1 p2 : Parameter),
      fetch s.memory s.pointerIdx = .ok n →
      Instruction.new (toUsize n) = .ok ⟨1, [p0, p1, p2]⟩ →
      fetch s.memory (uadd s.pointerIdx 1) = .ok a1 →
      getParameter s p0 a1 = .ok (v1, s1) →
      fetch s1.memory (uadd s.pointerIdx 2) = .ok a2 →
      getParameter s1 p1 a2 = .ok (v2, s2) →
      fetch s2.memory (uadd s.pointerIdx 3) = .ok out →
      setParameter s2 (toUsize out) (v1 + v2) = .ok s3 →
      step s = .ok (.next, { s3 with pointerIdx := uadd s3.pointerIdx 4 })) ∧
    (∀ (s s1 s2 s3 : ProgState) (n a1 v1 a2 v2 out : Int) (p0 p1 p2 : Parameter),
      fetch s.memory s.pointerIdx = .ok n →
      Instruction.new (toUsize n) = .ok ⟨2, [p0, p1, p2]⟩ →
      fetch s.memory (uadd s.pointerIdx 1) = .ok a1 →
      getParameter s p0 a1 = .ok (v1, s1) →
      fetch s1.memory (uadd s.pointerIdx 2) = .ok a2 →
      getParameter s1 p1 a2 = .ok (v2, s2) →
      fetch s2.memory (uadd s.pointerIdx 3) = .ok out →
      setParameter s2 (toUsize out) (v1 * v2) = .ok s3 →
      step s = .ok (.next, { s3 with pointerIdx := uadd s3.pointerIdx 4 })) ∧
    (∀ (s s1 s2 : ProgState) (n out input : Int) (ps : List Parameter),
      fetch s.memory s.pointerIdx = .ok n →
      Instruction.new (toUsize n) = .ok ⟨3, ps⟩ →
      fetch s.memory (uadd s.pointerIdx 1) = .ok out →
      getInput s = .ok (input, s1) →
      setParameter s1 (toUsize out) input = .ok s2 →
      step s = .ok (.next, { s2 with pointerIdx := uadd s2.pointerIdx 2 })) ∧
    (∀ (s s1 s2 s3 : ProgState) (n a1 v1 a2 v2 out : Int) (p0 p1 p2 : Parameter),
      fetch s.memory s.pointerIdx = .ok n →
      Instruction.new (toUsize n) = .ok ⟨7, [p0, p1, p2]⟩ →
      fetch s.memory (uadd s.pointerIdx 1) = .ok a1 →
      getParameter s p0 a1 = .ok (v1, s1) →
      fetch s1.memory (uadd s.pointerIdx 2) = .ok a2 →
      getParameter s1 p1 a2 = .ok (v2, s2) →
      fetch s2.memory (uadd s.pointerIdx 3) = .ok out →
      setParameter s2 (toUsize out) (if v1 < v2 then (1 : Int) else 0) = .ok s3 →
      step s = .ok (.next, { s3 with pointerIdx := uadd s3.pointerIdx 4 })) ∧
    (∀ (s s1 s2 s3 : ProgState) (n a1 v1 a2 v2 out : Int) (p0 p1 p2 : Parameter),
      fetch s.memory s.pointerIdx = .ok n →
      Instruction.new (toUsize n) = .ok ⟨8, [p0, p1, p2]⟩ →
      fetch s.memory (uadd s.pointerIdx 1) = .ok a1 →
      getParameter s p0 a1 = .ok (v1, s1) →
      fetch s1.memory (uadd s.pointerIdx 2) = .ok a2 →
      getParameter s1 p1 a2 = .ok (v2, s2) →
      fetch s2.memory (uadd s.pointerIdx 3) = .ok out →
      setParameter s2 (toUsize out) (if v1 = v2 then (1 : Int) else 0) = .ok s3 →
      step s = .ok (.next, { s3 with pointerIdx := uadd s3.pointerIdx 4 })) :=
  ⟨writeDest1, writeDest2, writeDest3, writeDest7, writeDest8⟩

/-- Witness for C4 at the add instruction `21101,5,6,0` of the
counterexample program, with relative base 3: the write of `11` goes to
absolute address 0 even though the destination mode is Relative. -/
theorem claim4_witness :
    (fetch ([109, 3, 21101, 5, 6, 0, 99] : List Int) (uadd 2 3) = .ok 0 ∧
      setParameter (⟨[109, 3, 21101, 5, 6, 0, 99], 1, 1, 1, 2, 3⟩ : ProgState)
        (toUsize 0) (5 + 6) = .ok ⟨[11, 3, 21101, 5, 6, 0, 99], 1, 1, 1, 2, 3⟩) ∧
    step (⟨[109, 3, 21101, 5, 6, 0, 99], 1, 1, 1, 2, 3⟩ : ProgState) =
      .ok (.next,
        { (⟨[11, 3, 21101, 5, 6, 0, 99], 1, 1, 1, 2, 3⟩ : ProgState) with
            pointerIdx := uadd 2 4 }) :=
  ⟨⟨by decide, by decide⟩,
    claim4_amended.1 ⟨[109, 3, 21101, 5, 6, 0, 99], 1, 1, 1, 2, 3⟩
      ⟨[109, 3, 21101, 5, 6, 0, 99], 1, 1, 1, 2, 3⟩
      ⟨[109, 3, 21101, 5, 6, 0, 99], 1, 1, 1, 2, 3⟩
      ⟨[11, 3, 21101, 5, 6, 0, 99], 1, 1, 1, 2, 3⟩
      21101 5 5 6 6 0 .Immediate .Immediate .Relative
      (by decide) (by decide) (by decide) (by decide) (by decide) (by decide)
      (by decide) (by decide)⟩



/-- Counterexample to C9 as stated: running `1105,1,4` jumps to address 4,
at or beyond the memory length 3; the claimed behaviour is that the
instruction fetch grows memory and reads 0 (which would then fail with
`InvalidOpcode 0`), but the direct indexing `self.memory[self.pointer_idx]`
performs no growth and the run aborts with an index-out-of-bounds panic. -/
theorem claim9_counterexample :
    runProgram 3 (ProgState.new [1105, 1, 4] 1 1) = .error .indexOutOfBounds ∧
    RunError.indexOutOfBounds ≠ RunError.invalidOpcode 0 := by
  constructor
  · decide
  · decide

/-- Claim C9 (amended): reads that go through `get_parameter` (Position
and Relative modes) do trigger zero-fill growth up to and including the
accessed index and yield the stored value (0 for the newly created cells),
as long as the new length stays below the `Vec` capacity limit; but the
direct instruction fetch at the pointer and the direct operand fetches are
plain indexing: at or beyond the current length they fail (panic) instead
of growing and reading 0. -/
theorem claim9_growth :
    (∀ (s : ProgState) (val : Int),
      s.memory.length ≤ toUsize val → toUsize val + 1 < VECCAP →
      getParameter s .Position val =
        .ok (0, { s with
          memory := s.memory ++
            List.replicate (toUsize val + 1 - s.memory.length) 0 })) ∧
    (∀ (s : ProgState) (val : Int),
      s.memory.length ≤ toUsize (s.relativeBase + val) →
      toUsize (s.relativeBase + val) + 1 < VECCAP →
      getParameter s .Relative val =
        .ok (0, { s with
          memory := s.memory ++
            List.replicate (toUsize (s.relativeBase + val) + 1 - s.memory.length) 0 })) ∧
    (∀ (mem : List Int) (i : Nat), mem.length ≤ i →
      fetch mem i = .error .indexOutOfBounds) ∧
    (∀ s : ProgState, s.memory.length ≤ s.pointerIdx →
      step s = .error .indexOutOfBounds) :=
  ⟨getParameter_grow_position, getParameter_grow_relative,
   fun _ _ h => fetch_oob h, fun _ h => step_oob h⟩

/-- Witness for C9: on `new [99] 0 0`, a Position read of address 3 grows
memory to `[99, 0, 0, 0]` and yields 0, while a direct fetch at index 3
and a step with the pointer at 1 both fail. -/
theorem claim9_witness :
    ((ProgState.new [99] 0 0).memory.length ≤ toUsize 3 ∧ toUsize 3 + 1 < VECCAP) ∧
    getParameter (ProgState.new [99] 0 0) .Position 3 =
      .ok (0, { ProgState.new [99] 0 0 with
        memory := [99] ++ List.replicate (toUsize 3 + 1 - 1) 0 }) ∧
    fetch ([99] : List Int) 3 = .error .indexOutOfBounds ∧
    step { ProgState.new [99] 0 0 with pointerIdx := 1 } =
      .error .indexOutOfBounds :=
  ⟨⟨by decide, by decide⟩,
   claim9_growth.1 (ProgState.new [99] 0 0) 3 (by decide) (by decide),
   claim9_growth.2.2.1 [99] 3 (by decide),
   claim9_growth.2.2.2 { ProgState.new [99] 0 0 with pointerIdx := 1 } (by decide)⟩

set_option maxRecDepth 1000000 in
/-- Claim C8 (confirmed): the amplifier search is exhaustive over the 120
permutations of `{0..4}`; each trial builds one `Program` per amplifier
seeded with phase `permutation[i] + 5` as first input and 0 as second
input (definition `trial`), chains outputs cyclically until some amplifier
halts, taking the last output of the fifth amplifier as the trial result;
when every trial succeeds with value `v p`, `_q2` returns the fold of
`max` over all permutations starting from 0, which bounds every trial
result from above and -- when trial results are nonnegative, as in the
amplifier domain -- is attained by some permutation, i.e. is the maximum
trial result. -/
theorem claim8_search :
    ∀ (mem : List Int) (fuel : Nat) (v : List Nat → Int),
      (∀ p ∈ permsOf [0, 1, 2, 3, 4], trial mem p fuel = .ok (v p)) →
      (getPermutations 5).length = 120 ∧
      (getPermutations 5).Perm (permsOf [0, 1, 2, 3, 4]) ∧
      q2 mem fuel =
        .ok (toUsize ((permsOf [0, 1, 2, 3, 4]).foldl (fun a p => max a (v p)) 0)) ∧
      (∀ p ∈ permsOf [0, 1, 2, 3, 4],
        v p ≤ (permsOf [0, 1, 2, 3, 4]).foldl (fun a p => max a (v p)) 0) ∧
      ((∀ p ∈ permsOf [0, 1, 2, 3, 4], (0 : Int) ≤ v p) →
        ∃ p0 ∈ permsOf [0, 1, 2, 3, 4],
          (permsOf [0, 1, 2, 3, 4]).foldl (fun a p => max a (v p)) 0 = v p0) := by
  intro mem fuel v hall
  refine ⟨by decide, by decide, q2_eq_max mem fuel v hall,
    fun p hp => foldl_max_le v _ 0 p hp, ?_⟩
  intro hnn
  rcases foldl_max_attains v (permsOf [0, 1, 2, 3, 4]) 0 with h | h
  · refine ⟨[0, 1, 2, 3, 4], by decide, ?_⟩
    have h1 := foldl_max_le v (permsOf [0, 1, 2, 3, 4]) 0 [0, 1, 2, 3, 4] (by decide)
    have h2 := hnn [0, 1, 2, 3, 4] (by decide)
    omega
  · exact h

set_option maxRecDepth 1000000 in
/-- Witness for C8 on the program `104,7,99`: every amplifier outputs 7
once and halts on resumption, so every one of the 120 trials yields 7 and
the search returns 7. -/
theorem claim8_witness :
    (∀ p ∈ permsOf [0, 1, 2, 3, 4],
      trial [104, 7, 99] p 30 = .ok ((fun _ => (7 : Int)) p)) ∧
    ((getPermutations 5).length = 120 ∧
      (getPermutations 5).Perm (permsOf [0, 1, 2, 3, 4]) ∧
      q2 [104, 7, 99] 30 =
        .ok (toUsize ((permsOf [0, 1, 2, 3, 4]).foldl
          (fun a p => max a ((fun _ => (7 : Int)) p)) 0)) ∧
      (∀ p ∈ permsOf [0, 1, 2, 3, 4],
        (fun _ => (7 : Int)) p ≤ (permsOf [0, 1, 2, 3, 4]).foldl
          (fun a p => max a ((fun _ => (7 : Int)) p)) 0) ∧
      ((∀ p ∈ permsOf [0, 1, 2, 3, 4], (0 : Int) ≤ (fun _ => (7 : Int)) p) →
        ∃ p0 ∈ permsOf [0, 1, 2, 3, 4],
          (permsOf [0, 1, 2, 3, 4]).foldl
            (fun a p => max a ((fun _ => (7 : Int)) p)) 0 = (fun _ => (7 : Int)) p0)) :=
  ⟨by decide, claim8_search [104, 7, 99] 30 (fun _ => 7) (by decide)⟩


end Day09
